import Mathlib

/-!
Verification of the `CharacterInput` hierarchical character-selection state
machine from `keyboard.py` (SHA2017 badge keyboard).

The embedding follows the source:

* `gen_range f t n m` mirrors `gen_range(f, to, n, m)` over exact rationals:
  chunk size `(to - f) / m`, result `(ceil(f + chunk*n), floor(f + chunk*(n+1)))`.
  This is the idealization used inside the state machine; for the branch
  count 4 and the ordinal magnitudes of every concrete scenario below, the
  Python float arithmetic is exact, so the two coincide there.
* `fl` and `gen_range_fp` model the same function under CPython's actual
  float semantics: `fl` is IEEE 754 binary64 rounding (round to nearest,
  ties to even; unbounded exponent — overflow and subnormal rounding never
  arise at the magnitudes considered here), and `gen_range_fp` applies `fl`
  to every intermediate operation, since CPython's int/int true division,
  int-to-float conversion, float multiplication and float addition are each
  correctly rounded.  `gen_range_fp = gen_range` is proved on the domain
  where every intermediate value is a quarter-integer of magnitude below
  `2^51` (hence exactly representable); the partitioner claims are settled
  against `gen_range_fp`.
* `CharacterInput` carries the fields of the Python object: `ascii_range`
  (the construction-time full range), `stack` (root-first list of intervals,
  top at the end, as a Python list used with `append`/`pop`/`[-1]`),
  `start`/`end_` (the current interval; `end` is a Lean keyword), and
  `emitted`, the log of characters passed to the completion callback, in
  order (the callback itself is external; one invocation = one appended
  character).
* `select_range` returns `Except`: `Err.startGtEnd` models the
  `RuntimeError('self.start > self.end')` raise and `Err.indexError` models
  the `IndexError` that `self.stack[-1]` raises when the preceding
  `self.stack.pop()` emptied the stack.  The error payload carries the state
  of the object at the moment the exception propagates (Python mutations made
  before the raise persist).
* `maybe_back` and `reset` are the direct translations; `chr` is modelled by
  `Char.ofNat` on the (in-range) ordinal.
* `runExcept`/`run` execute a list of operations, an uncaught exception
  aborting the rest of the sequence exactly as in Python.
-/

def NUM_RANGES : ℤ := 4

/-- Translation of `gen_range(f, to, n, m)` (`to` is a Lean keyword, renamed
to `t`): chunk size `(t - f) / m` over the rationals, result
`(ceil(f + chunk*n), floor(f + chunk*(n+1)))`. -/
def gen_range (f t n m : ℤ) : ℤ × ℤ :=
  let chunk_size : ℚ := ((t : ℚ) - (f : ℚ)) / (m : ℚ)
  (⌈(f : ℚ) + chunk_size * (n : ℚ)⌉, ⌊(f : ℚ) + chunk_size * ((n : ℚ) + 1)⌋)

/-- State of a `CharacterInput` object.  `emitted` logs the characters handed
to the completion callback. -/
structure CharacterInput where
  ascii_range : ℤ × ℤ
  stack : List (ℤ × ℤ)
  start : ℤ
  end_ : ℤ
  emitted : List Char
deriving DecidableEq

/-- Exceptions `select_range` can raise: the explicit
`RuntimeError('self.start > self.end')`, and the `IndexError` from
`self.stack[-1]` after a pop emptied the stack. -/
inductive Err where
  | startGtEnd
  | indexError
deriving DecidableEq

/-- Translation of `CharacterInput.reset`: `self.start, self.end = self.ascii_range`. -/
def reset (s : CharacterInput) : CharacterInput :=
  { s with start := s.ascii_range.1, end_ := s.ascii_range.2 }

namespace CharacterInput

/-- Translation of `CharacterInput.__init__`: store the range, set the stack
to `[ascii_range]`, then call `reset` (which initialises `start`/`end`). -/
def init (ascii_range : ℤ × ℤ) : CharacterInput :=
  reset { ascii_range := ascii_range, stack := [ascii_range],
          start := 0, end_ := 0, emitted := [] }

end CharacterInput

/-- Translation of `CharacterInput.select_range`: narrow the current interval
with `gen_range`, raise on `start > end`, on collapse (`start == end`) pop the
stack, restore the parent from `stack[-1]` and invoke the callback with
`chr(end)`, otherwise push the new interval. -/
def select_range (s : CharacterInput) (range_number : ℤ) :
    Except (Err × CharacterInput) CharacterInput :=
  let p := gen_range s.start s.end_ range_number NUM_RANGES
  let s1 : CharacterInput := { s with start := p.1, end_ := p.2 }
  if p.1 > p.2 then
    Except.error (Err.startGtEnd, s1)
  else if p.1 = p.2 then
    match (s1.stack.dropLast).getLast? with
    | some q =>
        Except.ok { s1 with
          stack := s1.stack.dropLast
          start := q.1
          end_ := q.2
          emitted := s1.emitted ++ [Char.ofNat p.2.toNat] }
    | none =>
        -- `self.stack[-1]` raises IndexError; the pop has already happened.
        Except.error (Err.indexError, { s1 with stack := s1.stack.dropLast })
  else
    Except.ok { s1 with stack := s1.stack ++ [(p.1, p.2)] }

/-- Translation of `CharacterInput.maybe_back`: pop and restore the new top
when the stack holds more than one element, otherwise do nothing. -/
def maybe_back (s : CharacterInput) : CharacterInput :=
  if 1 < s.stack.length then
    match (s.stack.dropLast).getLast? with
    | some q => { s with stack := s.stack.dropLast, start := q.1, end_ := q.2 }
    | none => s   -- unreachable: more than one element, so dropLast is nonempty
  else s

/-- One externally triggerable operation on the state machine. -/
inductive Op where
  | sel (n : ℤ)
  | back
  | rst
deriving DecidableEq

/-- Execute a sequence of operations; an uncaught exception from
`select_range` aborts the remaining sequence, as in Python. -/
def runExcept : CharacterInput → List Op → Except (Err × CharacterInput) CharacterInput
  | s, [] => Except.ok s
  | s, Op.sel n :: ops =>
      match select_range s n with
      | Except.ok t => runExcept t ops
      | Except.error et => Except.error et
  | s, Op.back :: ops => runExcept (maybe_back s) ops
  | s, Op.rst :: ops => runExcept (reset s) ops

/-- State of the object once the sequence has finished or an exception has
propagated out. -/
def finalState : Except (Err × CharacterInput) CharacterInput → CharacterInput
  | Except.ok t => t
  | Except.error (_, t) => t

/-- Final state of the object after a sequence of operations. -/
def run (s : CharacterInput) (ops : List Op) : CharacterInput :=
  finalState (runExcept s ops)

/-! ### IEEE 754 binary64 model of the Python float arithmetic -/

/-- Rounding of a positive rational to 53 significant bits, nearest value,
ties to even: scale into `[2^52, 2^53)`, take the floor, and round the
fractional remainder. -/
def flPos (a : ℚ) : ℚ :=
  let e : ℤ := Int.log 2 a
  let x : ℚ := a * 2 ^ (52 - e)
  let m0 : ℤ := ⌊x⌋
  let m : ℤ :=
    if x - m0 < 1 / 2 then m0
    else if 1 / 2 < x - m0 then m0 + 1
    else if m0 % 2 = 0 then m0 else m0 + 1
  m / 2 ^ (52 - e)

/-- Correct rounding to IEEE 754 binary64 (round to nearest, ties to even),
with unbounded exponent range: overflow and subnormal rounding are not
modelled, and none of the magnitudes considered in this development reach
them.  Every CPython operation appearing in `gen_range` (int/int true
division, int-to-float conversion, float multiplication, float addition)
returns exactly `fl` of the exact mathematical result. -/
def fl (q : ℚ) : ℚ :=
  if q < 0 then -flPos (-q) else if q = 0 then 0 else flPos q

/-- Translation of `gen_range(f, to, n, m)` under CPython float semantics:
`(to - f) / m` is int/int true division (correctly rounded to a float),
`chunk_size * n` converts the int `n` to a float and multiplies (each step
correctly rounded), `f + ...` converts `f` and adds, and `math.ceil` /
`math.floor` of a float are exact. -/
def gen_range_fp (f t n m : ℤ) : ℤ × ℤ :=
  let chunk_size : ℚ := fl (((t : ℚ) - (f : ℚ)) / (m : ℚ))
  (⌈fl (fl (f : ℚ) + fl (chunk_size * fl (n : ℚ)))⌉,
   ⌊fl (fl (f : ℚ) + fl (chunk_size * fl ((n : ℚ) + 1)))⌋)

/-! ### Arithmetic facts about `gen_range` -/

lemma ceil_as_floor (q : ℚ) : ⌈q⌉ = -⌊-q⌋ := by
  rw [Int.floor_neg, neg_neg]

/-- Splitting the full ASCII range `(0, 128)` into 4 chunks: branch `n`
(any integer, in range or not) yields `(32n, 32n + 32)`. -/
lemma gen_range_0_128 (n : ℤ) : gen_range 0 128 n 4 = (32 * n, 32 * n + 32) := by
  simp only [gen_range]
  norm_num
  constructor
  · rw [show ((32 : ℚ) * (n : ℚ)) = ((32 * n : ℤ) : ℚ) by push_cast; ring,
      Int.ceil_intCast]
  · rw [show ((32 : ℚ) * ((n : ℚ) + 1)) = ((32 * n + 32 : ℤ) : ℚ) by push_cast; ring,
      Int.floor_intCast]

/-! ### Facts about the binary64 rounding model -/

lemma int_log2_eq {q : ℚ} {e : ℤ} (hq : 0 < q) (h1 : (2:ℚ) ^ e ≤ q)
    (h2 : q < (2:ℚ) ^ (e + 1)) : Int.log 2 q = e := by
  have hb : 1 < (2:ℕ) := by norm_num
  have hle : e ≤ Int.log 2 q := by
    rw [← Int.zpow_le_iff_le_log hb hq]
    exact_mod_cast h1
  have hlt : Int.log 2 q < e + 1 := by
    rw [← Int.lt_zpow_iff_log_lt hb hq]
    exact_mod_cast h2
  omega

lemma fl_of_pos {a : ℚ} (ha : 0 < a) : fl a = flPos a := by
  rw [fl, if_neg (by linarith), if_neg (by linarith)]

lemma fl_zero : fl 0 = 0 := by norm_num [fl]

/-- A value whose scaled significand is already an integer is returned
unchanged by the rounding (it is exactly representable). -/
lemma flPos_of_int_scaled (a : ℚ) (k : ℤ)
    (hk : a * 2 ^ ((52:ℤ) - Int.log 2 a) = (k : ℚ)) : flPos a = a := by
  simp only [flPos]
  rw [hk, Int.floor_intCast]
  rw [if_pos (by norm_num : (k:ℚ) - (k:ℤ) < 1/2)]
  rw [eq_comm, eq_div_iff (ne_of_gt (zpow_pos (by norm_num) _))]
  exact hk

/-- Evaluation of the rounding when the remainder is below one half. -/
lemma flPos_eq_down (a : ℚ) (e m0 : ℤ) (ha : 0 < a)
    (h1 : (2:ℚ) ^ e ≤ a) (h2 : a < (2:ℚ) ^ (e + 1))
    (hm0 : ⌊a * (2:ℚ) ^ ((52:ℤ) - e)⌋ = m0)
    (hr : a * (2:ℚ) ^ ((52:ℤ) - e) - (m0:ℚ) < 1 / 2) :
    flPos a = (m0 : ℚ) / 2 ^ ((52:ℤ) - e) := by
  have hlog : Int.log 2 a = e := int_log2_eq ha h1 h2
  simp only [flPos, hlog, hm0]
  rw [if_pos hr]

/-- Evaluation of the rounding at an exact tie with odd floor: round up to
the even neighbour. -/
lemma flPos_eq_tie_up (a : ℚ) (e m0 : ℤ) (ha : 0 < a)
    (h1 : (2:ℚ) ^ e ≤ a) (h2 : a < (2:ℚ) ^ (e + 1))
    (hm0 : ⌊a * (2:ℚ) ^ ((52:ℤ) - e)⌋ = m0)
    (hr : a * (2:ℚ) ^ ((52:ℤ) - e) - (m0:ℚ) = 1 / 2)
    (hodd : m0 % 2 = 1) :
    flPos a = ((m0 + 1 : ℤ) : ℚ) / 2 ^ ((52:ℤ) - e) := by
  have hlog : Int.log 2 a = e := int_log2_eq ha h1 h2
  simp only [flPos, hlog, hm0]
  rw [hr]
  rw [if_neg (by norm_num), if_neg (by norm_num), if_neg (by omega)]

lemma flPos_dyadic (a : ℚ) (ha : 0 < a) (k : ℤ) (hk : a * 4 = (k : ℚ))
    (hb : a < 2 ^ (51:ℕ)) : flPos a = a := by
  have he : Int.log 2 a ≤ 50 := by
    by_contra h
    push_neg at h
    have h1 : (2:ℚ) ^ (51:ℤ) ≤ (2:ℚ) ^ (Int.log 2 a) :=
      zpow_le_zpow_right₀ (by norm_num) h
    have h2 : ((2:ℕ):ℚ) ^ (Int.log 2 a) ≤ a := Int.zpow_log_le_self (by norm_num) ha
    rw [show ((2:ℕ):ℚ) = 2 by norm_num] at h2
    have h3 : (2:ℚ) ^ (51:ℤ) = 2 ^ (51:ℕ) := by norm_num
    linarith
  apply flPos_of_int_scaled a (k * 2 ^ (50 - Int.log 2 a).toNat)
  have h52 : (52:ℤ) - Int.log 2 a = 2 + ((50 - Int.log 2 a).toNat : ℤ) := by omega
  rw [h52, zpow_add₀ (by norm_num : (2:ℚ) ≠ 0)]
  rw [show ((2:ℚ) ^ (2:ℤ)) = 4 by norm_num]
  rw [zpow_natCast]
  push_cast
  rw [← mul_assoc, hk]

/-- Quarter-integers of magnitude below `2^51` are exactly representable:
the rounding is the identity on them.  Every intermediate value of the
program's partition arithmetic at branch count 4 is of this shape when the
ordinals are suitably bounded. -/
lemma fl_dyadic (q : ℚ) (k : ℤ) (hk : q * 4 = (k : ℚ)) (hb : |q| < 2 ^ (51:ℕ)) :
    fl q = q := by
  rcases lt_trichotomy q 0 with hneg | h0 | hpos
  · rw [fl, if_pos hneg]
    have hfp : flPos (-q) = -q := by
      apply flPos_dyadic (-q) (by linarith) (-k) (by push_cast; linarith)
      rw [abs_of_neg hneg] at hb
      exact hb
    rw [hfp, neg_neg]
  · rw [h0, fl_zero]
  · rw [fl_of_pos hpos]
    apply flPos_dyadic q hpos k hk
    rwa [abs_of_pos hpos] at hb

/-! ### The concrete rounding chain of `gen_range(0, 1, 48, 49)` -/

lemma fl_1_49 : fl ((1:ℚ)/49) = 5882252574524729 / 2 ^ 58 := by
  rw [fl_of_pos (by norm_num)]
  rw [flPos_eq_down ((1:ℚ)/49) (-6) 5882252574524729 (by norm_num) (by norm_num)
    (by norm_num) (by norm_num) (by norm_num)]
  norm_num

lemma fl_48 : fl (48:ℚ) = 48 := fl_dyadic 48 192 (by norm_num) (by norm_num)
lemma fl_49 : fl (49:ℚ) = 49 := fl_dyadic 49 196 (by norm_num) (by norm_num)

lemma fl_mul48 : fl (5882252574524729 / 2 ^ 58 * 48 : ℚ) = 8823378861787094 / 2 ^ 53 := by
  rw [fl_of_pos (by norm_num)]
  rw [flPos_eq_tie_up (5882252574524729 / 2 ^ 58 * 48 : ℚ) (-1) 8823378861787093
    (by norm_num) (by norm_num) (by norm_num) (by norm_num) (by norm_num) (by norm_num)]
  norm_num

lemma fl_mul49 : fl (5882252574524729 / 2 ^ 58 * 49 : ℚ) = 9007199254740991 / 2 ^ 53 := by
  rw [fl_of_pos (by norm_num)]
  rw [flPos_eq_down (5882252574524729 / 2 ^ 58 * 49 : ℚ) (-1) 9007199254740991
    (by norm_num) (by norm_num) (by norm_num) (by norm_num) (by norm_num)]
  norm_num

lemma fl_idem_a : fl (8823378861787094 / 2 ^ 53 : ℚ) = 8823378861787094 / 2 ^ 53 := by
  rw [fl_of_pos (by norm_num)]
  apply flPos_of_int_scaled _ 8823378861787094
  rw [show Int.log 2 (8823378861787094 / 2 ^ 53 : ℚ) = -1 from
    int_log2_eq (by norm_num) (by norm_num) (by norm_num)]
  norm_num

lemma fl_idem_b : fl (9007199254740991 / 2 ^ 53 : ℚ) = 9007199254740991 / 2 ^ 53 := by
  rw [fl_of_pos (by norm_num)]
  apply flPos_of_int_scaled _ 9007199254740991
  rw [show Int.log 2 (9007199254740991 / 2 ^ 53 : ℚ) = -1 from
    int_log2_eq (by norm_num) (by norm_num) (by norm_num)]
  norm_num

/-! ### Exactness bridge: float partition = exact partition at branch count 4 -/

/-- Whenever every intermediate of the branch-count-4 partition arithmetic is
a quarter-integer of magnitude below `2^51` (the stated bounds guarantee
this), the float computation is exact and agrees with the rational one. -/
lemma gen_range_fp_eq_gen_range (f t n : ℤ)
    (hd : |t - f| ≤ 2 ^ 52)
    (hf : |f| < 2 ^ 51)
    (hn : |n| < 2 ^ 51) (hn1 : |n + 1| < 2 ^ 51)
    (hpn : |(t - f) * n| < 2 ^ 53)
    (hpn1 : |(t - f) * (n + 1)| < 2 ^ 53)
    (hsn : |4 * f + (t - f) * n| < 2 ^ 53)
    (hsn1 : |4 * f + (t - f) * (n + 1)| < 2 ^ 53) :
    gen_range_fp f t n 4 = gen_range f t n 4 := by
  have hdq : |(t:ℚ) - f| ≤ 2 ^ 52 := by exact_mod_cast hd
  have hfq : |(f:ℚ)| < 2 ^ 51 := by exact_mod_cast hf
  have hnq : |(n:ℚ)| < 2 ^ 51 := by exact_mod_cast hn
  have hn1q : |(n:ℚ) + 1| < 2 ^ 51 := by exact_mod_cast hn1
  have hpnq : |((t:ℚ) - f) * n| < 2 ^ 53 := by exact_mod_cast hpn
  have hpn1q : |((t:ℚ) - f) * ((n:ℚ) + 1)| < 2 ^ 53 := by exact_mod_cast hpn1
  have hsnq : |4 * (f:ℚ) + ((t:ℚ) - f) * n| < 2 ^ 53 := by exact_mod_cast hsn
  have hsn1q : |4 * (f:ℚ) + ((t:ℚ) - f) * ((n:ℚ) + 1)| < 2 ^ 53 := by exact_mod_cast hsn1
  have hc52 : (2:ℚ) ^ (52:ℕ) / 4 < 2 ^ (51:ℕ) := by norm_num
  have hc53 : (2:ℚ) ^ (53:ℕ) / 4 = 2 ^ (51:ℕ) := by norm_num
  have e1 : fl (((t:ℚ) - f) / 4) = ((t:ℚ) - f) / 4 := by
    apply fl_dyadic _ (t - f) (by push_cast; field_simp)
    rw [abs_div, show |(4:ℚ)| = 4 by norm_num]
    linarith
  have e2 : fl ((f:ℚ)) = (f:ℚ) := fl_dyadic _ (4 * f) (by push_cast; ring) hfq
  have e3 : fl ((n:ℚ)) = (n:ℚ) := fl_dyadic _ (4 * n) (by push_cast; ring) hnq
  have e4 : fl ((n:ℚ) + 1) = (n:ℚ) + 1 :=
    fl_dyadic _ (4 * (n + 1)) (by push_cast; ring) hn1q
  have e5 : fl (((t:ℚ) - f) / 4 * (n:ℚ)) = ((t:ℚ) - f) / 4 * (n:ℚ) := by
    apply fl_dyadic _ ((t - f) * n) (by push_cast; field_simp)
    rw [show ((t:ℚ) - f) / 4 * (n:ℚ) = (((t:ℚ) - f) * n) / 4 by ring,
      abs_div, show |(4:ℚ)| = 4 by norm_num]
    linarith
  have e6 : fl (((t:ℚ) - f) / 4 * ((n:ℚ) + 1)) = ((t:ℚ) - f) / 4 * ((n:ℚ) + 1) := by
    apply fl_dyadic _ ((t - f) * (n + 1)) (by push_cast; field_simp)
    rw [show ((t:ℚ) - f) / 4 * ((n:ℚ) + 1) = (((t:ℚ) - f) * ((n:ℚ) + 1)) / 4 by ring,
      abs_div, show |(4:ℚ)| = 4 by norm_num]
    linarith
  have e7 : fl ((f:ℚ) + ((t:ℚ) - f) / 4 * (n:ℚ)) =
      (f:ℚ) + ((t:ℚ) - f) / 4 * (n:ℚ) := by
    apply fl_dyadic _ (4 * f + (t - f) * n) (by push_cast; field_simp; ring)
    rw [show (f:ℚ) + ((t:ℚ) - f) / 4 * (n:ℚ) =
        (4 * (f:ℚ) + ((t:ℚ) - f) * n) / 4 by ring,
      abs_div, show |(4:ℚ)| = 4 by norm_num]
    linarith
  have e8 : fl ((f:ℚ) + ((t:ℚ) - f) / 4 * ((n:ℚ) + 1)) =
      (f:ℚ) + ((t:ℚ) - f) / 4 * ((n:ℚ) + 1) := by
    apply fl_dyadic _ (4 * f + (t - f) * (n + 1)) (by push_cast; field_simp; ring)
    rw [show (f:ℚ) + ((t:ℚ) - f) / 4 * ((n:ℚ) + 1) =
        (4 * (f:ℚ) + ((t:ℚ) - f) * ((n:ℚ) + 1)) / 4 by ring,
      abs_div, show |(4:ℚ)| = 4 by norm_num]
    linarith
  simp only [gen_range_fp, gen_range]
  push_cast
  rw [e1, e2, e3, e4, e5, e6, e7, e8]

/-- Specialization of the bridge to branch indices in `[0, 4]` and ordinals
bounded by `2^40`, the regime of the in-range partition claims. -/
lemma gen_range_fp_eq4_of_le (f t k : ℤ) (h1 : -(2 ^ 40) ≤ f) (h2 : f ≤ t)
    (h3 : t ≤ 2 ^ 40) (hk0 : 0 ≤ k) (hk4 : k ≤ 4) :
    gen_range_fp f t k 4 = gen_range f t k 4 := by
  interval_cases k <;>
    exact gen_range_fp_eq_gen_range f t _ (abs_le.mpr ⟨by omega, by omega⟩)
      (abs_lt.mpr ⟨by omega, by omega⟩) (abs_lt.mpr ⟨by omega, by omega⟩)
      (abs_lt.mpr ⟨by omega, by omega⟩) (abs_lt.mpr ⟨by omega, by omega⟩)
      (abs_lt.mpr ⟨by omega, by omega⟩) (abs_lt.mpr ⟨by omega, by omega⟩)
      (abs_lt.mpr ⟨by omega, by omega⟩)

/-! ### Tiling facts about the exact partition -/

lemma gen_range_first (f t m : ℤ) : (gen_range f t 0 m).1 = f := by
  simp [gen_range]

lemma gen_range_last4 (f t : ℤ) : (gen_range f t 3 4).2 = t := by
  simp only [gen_range]
  rw [show ((t : ℚ) - f) / ((4:ℤ):ℚ) * (((3:ℤ):ℚ) + 1) = (t:ℚ) - f from by
    push_cast; ring]
  rw [show (f:ℚ) + ((t:ℚ) - f) = ((t:ℤ):ℚ) from by ring]
  exact Int.floor_intCast t

lemma gen_range_adj_le (f t n m : ℤ) :
    (gen_range f t n m).2 ≤ (gen_range f t (n + 1) m).1 := by
  simp only [gen_range]
  rw [show (((n + 1 : ℤ)) : ℚ) = (n : ℚ) + 1 from by push_cast; ring]
  exact Int.floor_le_ceil _

lemma gen_range_adj_ge (f t n m : ℤ) :
    (gen_range f t (n + 1) m).1 ≤ (gen_range f t n m).2 + 1 := by
  simp only [gen_range]
  rw [show (((n + 1 : ℤ)) : ℚ) = (n : ℚ) + 1 from by push_cast; ring]
  exact Int.ceil_le_floor_add_one _

/-! ### Case analysis of `select_range` and `maybe_back` -/

/-- Non-collapsing, non-faulting select: the sub-interval is pushed. -/
lemma select_range_push (s : CharacterInput) (n a b : ℤ)
    (h : gen_range s.start s.end_ n NUM_RANGES = (a, b)) (hab : a < b) :
    select_range s n =
      Except.ok { s with stack := s.stack ++ [(a, b)], start := a, end_ := b } := by
  simp only [select_range, h]
  rw [if_neg (by omega : ¬ a > b), if_neg (by omega : ¬ a = b)]

/-- Collapsing select with a parent available: pop, restore the parent,
emit the character. -/
lemma select_range_collapse (s : CharacterInput) (n x : ℤ) (q : ℤ × ℤ)
    (h : gen_range s.start s.end_ n NUM_RANGES = (x, x))
    (hq : (s.stack.dropLast).getLast? = some q) :
    select_range s n =
      Except.ok { s with
        stack := s.stack.dropLast
        start := q.1
        end_ := q.2
        emitted := s.emitted ++ [Char.ofNat x.toNat] } := by
  simp only [select_range, h]
  simp [hq]

/-- Collapsing select with no parent left: the pop empties the stack and the
parent lookup faults. -/
lemma select_range_collapse_root (s : CharacterInput) (n x : ℤ)
    (h : gen_range s.start s.end_ n NUM_RANGES = (x, x))
    (hq : (s.stack.dropLast).getLast? = none) :
    select_range s n =
      Except.error (Err.indexError,
        { s with stack := s.stack.dropLast, start := x, end_ := x }) := by
  simp only [select_range, h]
  simp [hq]

/-- Faulting select: the invalid interval is stored and the error is raised. -/
lemma select_range_fault (s : CharacterInput) (n a b : ℤ)
    (h : gen_range s.start s.end_ n NUM_RANGES = (a, b)) (hab : b < a) :
    select_range s n =
      Except.error (Err.startGtEnd, { s with start := a, end_ := b }) := by
  simp only [select_range, h]
  rw [if_pos (by omega : a > b)]

/-- Backtrack with a parent available: pop and restore the new top. -/
lemma maybe_back_pop (s : CharacterInput) (q : ℤ × ℤ)
    (hlen : 1 < s.stack.length) (hq : (s.stack.dropLast).getLast? = some q) :
    maybe_back s = { s with stack := s.stack.dropLast, start := q.1, end_ := q.2 } := by
  simp only [maybe_back]
  rw [if_pos hlen]
  simp only [hq]

/-- Backtrack at the root (or on an impossible empty stack): no mutation. -/
lemma maybe_back_root (s : CharacterInput) (hlen : s.stack.length ≤ 1) :
    maybe_back s = s := by
  simp only [maybe_back]
  rw [if_neg (by omega : ¬ 1 < s.stack.length)]

/-! ### Concrete partition values used by the tests and scenarios -/

lemma gen_range_32_136_1 : gen_range 32 136 1 4 = (58, 84) := by
  simp only [gen_range, ceil_as_floor]; norm_num

lemma gen_range_58_84_1 : gen_range 58 84 1 4 = (65, 71) := by
  simp only [gen_range, ceil_as_floor]; norm_num

lemma gen_range_65_71_1 : gen_range 65 71 1 4 = (67, 68) := by
  simp only [gen_range, ceil_as_floor]; norm_num

lemma gen_range_67_68_1 : gen_range 67 68 1 4 = (68, 67) := by
  simp only [gen_range, ceil_as_floor]; norm_num

lemma gen_range_0_0_0 : gen_range 0 0 0 4 = (0, 0) := by
  simp only [gen_range, ceil_as_floor]; norm_num

lemma gen_range_0_2_0 : gen_range 0 2 0 4 = (0, 0) := by
  simp only [gen_range, ceil_as_floor]; norm_num

/-! ### Reachability invariant for the reference construction `(0, 128)` -/

/-- Invariant maintained by every operation from `CharacterInput.init (0, 128)`:
the construction range is `(0, 128)`, the bottom of the stack is the full
range, and at depth 1 the current interval is the full range (so a select at
the root always pushes and never collapses). -/
def StackInv (s : CharacterInput) : Prop :=
  s.ascii_range = (0, 128) ∧ s.stack.head? = some (0, 128) ∧
    (s.stack.length = 1 → s.start = 0 ∧ s.end_ = 128)

/-- Invariant of the outcome of an operation: a normal result satisfies
`StackInv`; a raised exception leaves the object with a non-empty stack. -/
def StackInvE : Except (Err × CharacterInput) CharacterInput → Prop
  | Except.ok t => StackInv t
  | Except.error et => et.2.stack ≠ []

lemma StackInv.stack_ne_nil {s : CharacterInput} (h : StackInv s) : s.stack ≠ [] := by
  intro hnil
  have hh := h.2.1
  rw [hnil] at hh
  exact Option.noConfusion hh

/-- Decomposition of a stack of depth at least 2 whose bottom element is the
full range: after removing the top, the remainder is nonempty, still has the
full range at the bottom, and if only one element remains it is the full
range itself. -/
lemma stack_pop_facts (s : List (ℤ × ℤ)) (hh : s.head? = some (0, 128))
    (hlen2 : 2 ≤ s.length) :
    ∃ q : ℤ × ℤ, s.dropLast.getLast? = some q ∧
      s.dropLast.head? = some (0, 128) ∧
      s.dropLast.length + 1 = s.length ∧
      (s.dropLast.length = 1 → q = (0, 128)) := by
  have hne : s ≠ [] := by intro h0; rw [h0] at hlen2; simp at hlen2
  obtain ⟨l, a, hc0⟩ := s.eq_nil_or_concat.resolve_left hne
  have hconcat : s = l ++ [a] := by rw [hc0, List.concat_eq_append]
  have hlne : l ≠ [] := by
    intro h0
    rw [hconcat, h0] at hlen2
    simp at hlen2
  have hdrop : s.dropLast = l := by rw [hconcat]; exact List.dropLast_concat
  obtain ⟨l2, q, hl0⟩ := l.eq_nil_or_concat.resolve_left hlne
  have hl : l = l2 ++ [q] := by rw [hl0, List.concat_eq_append]
  refine ⟨q, ?_, ?_, ?_, ?_⟩
  · rw [hdrop, hl]; exact List.getLast?_concat l2
  · rw [hdrop]
    rw [hconcat, List.head?_append_of_ne_nil _ hlne] at hh
    exact hh
  · rw [hdrop, hconcat, List.length_append]
    simp
  · intro hlen1
    rw [hdrop] at hlen1
    have hl2 : l2 = [] := by
      rw [hl, List.length_append] at hlen1
      exact List.length_eq_zero.mp (by simpa using hlen1)
    have : l = [q] := by rw [hl, hl2]; rfl
    rw [hconcat, List.head?_append_of_ne_nil _ hlne, this] at hh
    have : (0, 128) = q := by simpa using hh.symm
    exact this.symm

lemma select_range_invE (s : CharacterInput) (n : ℤ) (h : StackInv s) :
    StackInvE (select_range s n) := by
  obtain ⟨ha, hh, h1⟩ := h
  have hne : s.stack ≠ [] := by
    intro hnil; rw [hnil] at hh; exact Option.noConfusion hh
  by_cases hlen : s.stack.length = 1
  · -- at the root the current interval is (0, 128); every branch pushes
    obtain ⟨hs, he⟩ := h1 hlen
    have hg : gen_range s.start s.end_ n NUM_RANGES = (32 * n, 32 * n + 32) := by
      rw [hs, he]; exact gen_range_0_128 n
    rw [select_range_push s n (32 * n) (32 * n + 32) hg (by omega)]
    refine ⟨ha, ?_, ?_⟩
    · rw [List.head?_append_of_ne_nil _ hne]; exact hh
    · intro hlen'
      simp only [List.length_append, List.length_cons, List.length_nil] at hlen'
      omega
  · -- depth at least 2
    have hpos : 0 < s.stack.length := List.length_pos.mpr hne
    have hlen2 : 2 ≤ s.stack.length := by omega
    obtain ⟨q, hq, hheadl, hlenl, hq1⟩ := stack_pop_facts s.stack hh hlen2
    rcases hgen : gen_range s.start s.end_ n NUM_RANGES with ⟨a', b'⟩
    rcases lt_trichotomy a' b' with hlt | heq | hgt
    · rw [select_range_push s n a' b' hgen hlt]
      refine ⟨ha, ?_, ?_⟩
      · rw [List.head?_append_of_ne_nil _ hne]; exact hh
      · intro hlen'
        simp only [List.length_append, List.length_cons, List.length_nil] at hlen'
        omega
    · subst heq
      rw [select_range_collapse s n a' q hgen hq]
      refine ⟨ha, hheadl, ?_⟩
      intro hlen'
      simp only at hlen'
      have := hq1 hlen'
      rw [this]
      exact ⟨rfl, rfl⟩
    · rw [select_range_fault s n a' b' hgen hgt]
      exact hne

lemma maybe_back_inv (s : CharacterInput) (h : StackInv s) :
    StackInv (maybe_back s) := by
  obtain ⟨ha, hh, h1⟩ := h
  by_cases hlen : 1 < s.stack.length
  · obtain ⟨q, hq, hheadl, hlenl, hq1⟩ := stack_pop_facts s.stack hh (by omega)
    rw [maybe_back_pop s q hlen hq]
    refine ⟨ha, hheadl, ?_⟩
    intro hlen'
    simp only at hlen'
    have := hq1 hlen'
    rw [this]
    exact ⟨rfl, rfl⟩
  · rw [maybe_back_root s (by omega)]
    exact ⟨ha, hh, h1⟩

lemma reset_inv (s : CharacterInput) (h : StackInv s) : StackInv (reset s) := by
  obtain ⟨ha, hh, _⟩ := h
  refine ⟨ha, hh, fun _ => ?_⟩
  simp [reset, ha]

lemma runExcept_invE (ops : List Op) :
    ∀ s : CharacterInput, StackInv s → StackInvE (runExcept s ops) := by
  induction ops with
  | nil => intro s h; exact h
  | cons op ops ih =>
    intro s h
    cases op with
    | sel n =>
      have hsel := select_range_invE s n h
      simp only [runExcept]
      cases hs : select_range s n with
      | ok t =>
        rw [hs] at hsel
        exact ih t hsel
      | error et =>
        rw [hs] at hsel
        exact hsel
    | back => exact ih _ (maybe_back_inv s h)
    | rst => exact ih _ (reset_inv s h)

lemma stackInv_init_0_128 : StackInv (CharacterInput.init (0, 128)) :=
  ⟨rfl, rfl, fun _ => ⟨rfl, rfl⟩⟩
/-- Complete case enumeration of `select_range`: fault, collapse with parent,
collapse on a lone stack element, or push. -/
lemma select_range_cases (s : CharacterInput) (n : ℤ) :
    (∃ a b : ℤ, gen_range s.start s.end_ n NUM_RANGES = (a, b) ∧ b < a ∧
      select_range s n =
        Except.error (Err.startGtEnd, { s with start := a, end_ := b })) ∨
    (∃ (x : ℤ) (q : ℤ × ℤ), gen_range s.start s.end_ n NUM_RANGES = (x, x) ∧
      (s.stack.dropLast).getLast? = some q ∧
      select_range s n =
        Except.ok { s with
          stack := s.stack.dropLast
          start := q.1
          end_ := q.2
          emitted := s.emitted ++ [Char.ofNat x.toNat] }) ∨
    (∃ x : ℤ, gen_range s.start s.end_ n NUM_RANGES = (x, x) ∧
      (s.stack.dropLast).getLast? = none ∧
      select_range s n =
        Except.error (Err.indexError,
          { s with stack := s.stack.dropLast, start := x, end_ := x })) ∨
    (∃ a b : ℤ, gen_range s.start s.end_ n NUM_RANGES = (a, b) ∧ a < b ∧
      select_range s n =
        Except.ok { s with stack := s.stack ++ [(a, b)], start := a, end_ := b }) := by
  rcases hgen : gen_range s.start s.end_ n NUM_RANGES with ⟨a, b⟩
  rcases lt_trichotomy a b with hlt | heq | hgt
  · exact Or.inr (Or.inr (Or.inr ⟨a, b, rfl, hlt, select_range_push s n a b hgen hlt⟩))
  · subst heq
    cases hg : ((s.stack.dropLast).getLast?) with
    | some q =>
      exact Or.inr (Or.inl ⟨a, q, rfl, rfl, select_range_collapse s n a q hgen hg⟩)
    | none =>
      exact Or.inr (Or.inr (Or.inl ⟨a, rfl, rfl, select_range_collapse_root s n a hgen hg⟩))
  · exact Or.inl ⟨a, b, rfl, hgt, select_range_fault s n a b hgen hgt⟩

/-! ### Frame facts: `ascii_range` is set at construction and never mutated -/

lemma select_range_ascii_ok (s : CharacterInput) (n : ℤ) (t : CharacterInput)
    (h : select_range s n = Except.ok t) : t.ascii_range = s.ascii_range := by
  rcases select_range_cases s n with ⟨a, b, _, _, he⟩ | ⟨x, q, _, _, he⟩ |
    ⟨x, _, _, he⟩ | ⟨a, b, _, _, he⟩ <;> rw [he] at h
  · exact Except.noConfusion h
  · injection h with h; rw [← h]
  · exact Except.noConfusion h
  · injection h with h; rw [← h]

lemma select_range_ascii_err (s : CharacterInput) (n : ℤ)
    (et : Err × CharacterInput) (h : select_range s n = Except.error et) :
    et.2.ascii_range = s.ascii_range := by
  rcases select_range_cases s n with ⟨a, b, _, _, he⟩ | ⟨x, q, _, _, he⟩ |
    ⟨x, _, _, he⟩ | ⟨a, b, _, _, he⟩ <;> rw [he] at h
  · injection h with h; rw [← h]
  · exact Except.noConfusion h
  · injection h with h; rw [← h]
  · exact Except.noConfusion h

lemma maybe_back_ascii (s : CharacterInput) :
    (maybe_back s).ascii_range = s.ascii_range := by
  simp only [maybe_back]
  split_ifs
  · cases hg : ((s.stack.dropLast).getLast?) <;> simp
  · rfl

lemma run_ascii (ops : List Op) :
    ∀ s : CharacterInput, (run s ops).ascii_range = s.ascii_range := by
  induction ops with
  | nil => intro s; rfl
  | cons op ops ih =>
    intro s
    cases op with
    | sel n =>
      show (finalState (runExcept s (Op.sel n :: ops))).ascii_range = _
      simp only [runExcept]
      cases hs : select_range s n with
      | ok t =>
        have := ih t
        rw [run] at this
        rw [this]
        exact select_range_ascii_ok s n t hs
      | error et =>
        exact select_range_ascii_err s n et hs
    | back =>
      show (finalState (runExcept (maybe_back s) ops)).ascii_range = _
      rw [show finalState (runExcept (maybe_back s) ops) = run (maybe_back s) ops from rfl,
        ih (maybe_back s), maybe_back_ascii]
    | rst =>
      show (finalState (runExcept (reset s) ops)).ascii_range = _
      rw [show finalState (runExcept (reset s) ops) = run (reset s) ops from rfl,
        ih (reset s)]
      rfl

/-! ### Claims -/

/-- C1 (counterexample): for a degenerate construction range such as `(0, 0)`
the very first select collapses at stack depth 1; the pop removes the last
remaining stack element, so the call leaves the stack empty (and then faults
on the parent lookup).  This refutes the claim for arbitrary reachable
states. -/
theorem c1_counterexample :
    select_range (CharacterInput.init (0, 0)) 0 =
      Except.error (Err.indexError, ⟨(0, 0), [], 0, 0, []⟩) := by
  rw [select_range_collapse_root (CharacterInput.init (0, 0)) 0 0 gen_range_0_0_0 rfl]
  rfl

/-- C1 (amended): for every state reachable from the reference construction
`CharacterInput.init (0, 128)` by any operation sequence the stack stays
non-empty (the root range is wide enough that no collapse can happen at
depth 1), and `maybe_back` never reduces the stack depth below 1 from any
state whatsoever. -/
theorem c1_stack_stays_nonempty :
    (∀ ops : List Op, (run (CharacterInput.init (0, 128)) ops).stack ≠ []) ∧
    (∀ s : CharacterInput, 1 ≤ s.stack.length → 1 ≤ (maybe_back s).stack.length) := by
  constructor
  · intro ops
    have h := runExcept_invE ops _ stackInv_init_0_128
    rw [run]
    cases hre : runExcept (CharacterInput.init (0, 128)) ops with
    | ok t =>
      rw [hre] at h
      exact StackInv.stack_ne_nil h
    | error et =>
      rw [hre] at h
      exact h
  · intro s hlen
    by_cases h1 : 1 < s.stack.length
    · cases hg : ((s.stack.dropLast).getLast?) with
      | some q =>
        rw [maybe_back_pop s q h1 hg]
        simp only [List.length_dropLast]
        omega
      | none =>
        simp only [maybe_back, if_pos h1, hg]
        exact hlen
    · rw [maybe_back_root s (by omega)]
      exact hlen

/-- C1 (witness): the amended statement applied to a concrete operation
sequence and a concrete state. -/
theorem c1_witness :
    (run (CharacterInput.init (0, 128)) [Op.sel 2, Op.back, Op.sel 0]).stack ≠ [] ∧
    1 ≤ (maybe_back (CharacterInput.init (0, 128))).stack.length :=
  ⟨c1_stack_stays_nonempty.1 [Op.sel 2, Op.back, Op.sel 0],
   c1_stack_stays_nonempty.2 (CharacterInput.init (0, 128)) (le_refl 1)⟩

/-- C2 (counterexample): a collapsing select from stack depth 2 leaves the
stack at depth 1, not at the pre-call depth 2: the claim that "the stack
depth after the call equals the depth it had immediately before" is false
(the callback is invoked once and current is the parent, as claimed, but the
previously pushed level is popped without replacement). -/
theorem c2_counterexample :
    select_range ⟨(0, 128), [(0, 128), (0, 2)], 0, 2, []⟩ 0 =
      Except.ok ⟨(0, 128), [(0, 128)], 0, 128, [Char.ofNat 0]⟩ ∧
    ([((0:ℤ), (128:ℤ)), ((0:ℤ), (2:ℤ))] : List (ℤ × ℤ)).length ≠
      ([((0:ℤ), (128:ℤ))] : List (ℤ × ℤ)).length := by
  constructor
  · rw [select_range_collapse ⟨(0, 128), [(0, 128), (0, 2)], 0, 2, []⟩ 0 0
      ((0:ℤ), (128:ℤ)) gen_range_0_2_0 rfl]
    rfl
  · decide

/-- C2 (amended): a collapsing select that returns normally invokes the
callback exactly once with `chr` of the collapsed ordinal, pops the
previously entered level (stack depth decreases by exactly one; the
collapsed leaf is never pushed), and leaves the current interval equal to
the new top of the stack; a non-collapsing successful select invokes no
callback. -/
theorem c2_collapse_behavior :
    (∀ (s : CharacterInput) (n x : ℤ) (t : CharacterInput),
      gen_range s.start s.end_ n NUM_RANGES = (x, x) →
      select_range s n = Except.ok t →
      t.emitted = s.emitted ++ [Char.ofNat x.toNat] ∧
      t.stack = s.stack.dropLast ∧
      t.stack.length + 1 = s.stack.length ∧
      t.stack.getLast? = some (t.start, t.end_)) ∧
    (∀ (s : CharacterInput) (n a b : ℤ) (t : CharacterInput),
      gen_range s.start s.end_ n NUM_RANGES = (a, b) → a ≠ b →
      select_range s n = Except.ok t → t.emitted = s.emitted) := by
  constructor
  · intro s n x t hx hok
    rcases select_range_cases s n with ⟨a, b, hgen, hba, he⟩ | ⟨x', q, hgen, hg, he⟩ |
      ⟨x', hgen, hg, he⟩ | ⟨a, b, hgen, hab, he⟩ <;> rw [he] at hok
    · exact Except.noConfusion hok
    · rw [hgen] at hx
      injection hx with hx1 hx2
      subst hx1
      injection hok with hok
      subst hok
      have hdne : s.stack.dropLast ≠ [] := by
        intro h0; rw [h0] at hg; exact Option.noConfusion hg
      have hdpos : 0 < s.stack.dropLast.length := List.length_pos.mpr hdne
      have hdl := List.length_dropLast s.stack
      refine ⟨rfl, rfl, ?_, ?_⟩
      · show s.stack.dropLast.length + 1 = s.stack.length
        omega
      · show (s.stack.dropLast).getLast? = some (q.1, q.2)
        rw [hg, Prod.mk.eta]
    · exact Except.noConfusion hok
    · exfalso
      rw [hgen] at hx
      have h1 := congrArg Prod.fst hx
      have h2 := congrArg Prod.snd hx
      simp only at h1 h2
      omega
  · intro s n a b t hab hne hok
    rcases select_range_cases s n with ⟨a', b', hgen, hba, he⟩ | ⟨x, q, hgen, hg, he⟩ |
      ⟨x, hgen, hg, he⟩ | ⟨a', b', hgen, hab', he⟩ <;> rw [he] at hok
    · exact Except.noConfusion hok
    · exfalso
      rw [hgen] at hab
      have h1 := congrArg Prod.fst hab
      have h2 := congrArg Prod.snd hab
      simp only at h1 h2
      exact hne (by omega)
    · exact Except.noConfusion hok
    · injection hok with hok
      subst hok
      rfl

/-- C2 (witness): the amended statement applied to a concrete collapsing
select (from depth 2) and a concrete non-collapsing select. -/
theorem c2_witness :
    ((⟨(0, 128), [(0, 128)], 0, 128, [Char.ofNat 0]⟩ : CharacterInput).emitted =
        (⟨(0, 128), [(0, 128), (0, 2)], 0, 2, []⟩ : CharacterInput).emitted ++
          [Char.ofNat (0 : ℤ).toNat] ∧
      (⟨(0, 128), [(0, 128)], 0, 128, [Char.ofNat 0]⟩ : CharacterInput).stack =
        (⟨(0, 128), [(0, 128), (0, 2)], 0, 2, []⟩ : CharacterInput).stack.dropLast ∧
      (⟨(0, 128), [(0, 128)], 0, 128, [Char.ofNat 0]⟩ : CharacterInput).stack.length + 1 =
        (⟨(0, 128), [(0, 128), (0, 2)], 0, 2, []⟩ : CharacterInput).stack.length ∧
      (⟨(0, 128), [(0, 128)], 0, 128, [Char.ofNat 0]⟩ : CharacterInput).stack.getLast? =
        some ((⟨(0, 128), [(0, 128)], 0, 128, [Char.ofNat 0]⟩ : CharacterInput).start,
          (⟨(0, 128), [(0, 128)], 0, 128, [Char.ofNat 0]⟩ : CharacterInput).end_)) ∧
    (⟨(0, 128), [(0, 128), (64, 96)], 64, 96, []⟩ : CharacterInput).emitted =
      (CharacterInput.init (0, 128)).emitted := by
  constructor
  · apply c2_collapse_behavior.1 ⟨(0, 128), [(0, 128), (0, 2)], 0, 2, []⟩ 0 0
      ⟨(0, 128), [(0, 128)], 0, 128, [Char.ofNat 0]⟩ gen_range_0_2_0
    rw [select_range_collapse ⟨(0, 128), [(0, 128), (0, 2)], 0, 2, []⟩ 0 0
      ((0:ℤ), (128:ℤ)) gen_range_0_2_0 rfl]
    rfl
  · have hg2 : gen_range (CharacterInput.init (0, 128)).start
        (CharacterInput.init (0, 128)).end_ 2 NUM_RANGES = (64, 96) := by
      have h := gen_range_0_128 2
      norm_num at h
      exact h
    have hok2 : select_range (CharacterInput.init (0, 128)) 2 =
        Except.ok ⟨(0, 128), [(0, 128), (64, 96)], 64, 96, []⟩ := by
      rw [select_range_push (CharacterInput.init (0, 128)) 2 64 96 hg2 (by norm_num)]
      rfl
    exact c2_collapse_behavior.2 (CharacterInput.init (0, 128)) 2 64 96
      ⟨(0, 128), [(0, 128), (64, 96)], 64, 96, []⟩ hg2 (by norm_num) hok2

/-- C3 (code_bug evidence): from range `(32, 136)` with branch count 4 the
sequence `select(1)` four times then `select(2)` — the body of the
repository's own test `test_start_gt_end` — raises the `start > end`
invariant fault on the fourth `select(1)` (interval `(67, 68)` partitions to
`(68, 67)`), aborting the sequence with no character ever emitted.  The code
therefore contradicts its own test, which passes only if no exception is
raised. -/
theorem c3_test_sequence_raises :
    runExcept (CharacterInput.init (32, 136))
        [Op.sel 1, Op.sel 1, Op.sel 1, Op.sel 1, Op.sel 2] =
      Except.error (Err.startGtEnd,
        ⟨(32, 136), [(32, 136), (58, 84), (65, 71), (67, 68)], 68, 67, []⟩) := by
  have h1 : select_range (CharacterInput.init (32, 136)) 1 =
      Except.ok ⟨(32, 136), [(32, 136), (58, 84)], 58, 84, []⟩ := by
    rw [select_range_push (CharacterInput.init (32, 136)) 1 58 84
      gen_range_32_136_1 (by norm_num)]
    rfl
  have h2 : select_range (⟨(32, 136), [(32, 136), (58, 84)], 58, 84, []⟩ : CharacterInput) 1 =
      Except.ok ⟨(32, 136), [(32, 136), (58, 84), (65, 71)], 65, 71, []⟩ := by
    rw [select_range_push ⟨(32, 136), [(32, 136), (58, 84)], 58, 84, []⟩ 1 65 71
      gen_range_58_84_1 (by norm_num)]
    rfl
  have h3 : select_range
        (⟨(32, 136), [(32, 136), (58, 84), (65, 71)], 65, 71, []⟩ : CharacterInput) 1 =
      Except.ok ⟨(32, 136), [(32, 136), (58, 84), (65, 71), (67, 68)], 67, 68, []⟩ := by
    rw [select_range_push ⟨(32, 136), [(32, 136), (58, 84), (65, 71)], 65, 71, []⟩ 1 67 68
      gen_range_65_71_1 (by norm_num)]
    rfl
  have h4 : select_range
        (⟨(32, 136), [(32, 136), (58, 84), (65, 71), (67, 68)], 67, 68, []⟩ : CharacterInput) 1 =
      Except.error (Err.startGtEnd,
        ⟨(32, 136), [(32, 136), (58, 84), (65, 71), (67, 68)], 68, 67, []⟩) := by
    rw [select_range_fault ⟨(32, 136), [(32, 136), (58, 84), (65, 71), (67, 68)], 67, 68, []⟩ 1
      68 67 gen_range_67_68_1 (by norm_num)]
  simp only [runExcept, h1, h2, h3, h4]

/-- C4 (counterexample): for the reference range `(0, 128)` and branch count
4 the sub-intervals the program computes (float semantics, exact at these
magnitudes) for branches 0 and 1 are `(0, 32)` and `(32, 64)`: they share
the ordinal 32, so the sub-intervals are not pairwise non-overlapping as
claimed (every integer chunk boundary is shared by the two adjacent
inclusive sub-intervals). -/
theorem c4_counterexample :
    gen_range_fp 0 128 0 4 = (0, 32) ∧ gen_range_fp 0 128 1 4 = (32, 64) := by
  constructor
  · rw [gen_range_fp_eq4_of_le 0 128 0 (by norm_num) (by norm_num) (by norm_num)
      (by norm_num) (by norm_num), gen_range_0_128 0]
    norm_num
  · rw [gen_range_fp_eq4_of_le 0 128 1 (by norm_num) (by norm_num) (by norm_num)
      (by norm_num) (by norm_num), gen_range_0_128 1]
    norm_num

/-- C4 (amended): for the program's branch count 4 (`NUM_RANGES`) and
ordinals in the float-exact regime `|from|, |to| ≤ 2^40` — where every
intermediate of the float computation is a quarter-integer of magnitude
below `2^51`, so `gen_range_fp` provably coincides with the exact
arithmetic — the four sub-intervals are gap-free and cover exactly
`(from, to)`: the first starts at `from`, the last ends at `to`, and each
boundary satisfies `end of branch n ≤ start of branch n+1 ≤ end of branch
n + 1`.  Adjacent sub-intervals either tile exactly or overlap in exactly
the shared boundary ordinal (when the real-valued boundary is an integer),
so "pairwise non-overlapping" fails at every integer boundary; and outside
this regime even exact coverage can fail (see the C6 counterexample at
branch count 49, where the last branch ends at 0 instead of `to = 1`). -/
theorem c4_partition_tiling :
    ∀ f t n : ℤ, -(2 ^ 40) ≤ f → f ≤ t → t ≤ 2 ^ 40 → 0 ≤ n → n + 1 < 4 →
      (gen_range_fp f t 0 4).1 = f ∧
      (gen_range_fp f t 3 4).2 = t ∧
      (gen_range_fp f t n 4).2 ≤ (gen_range_fp f t (n + 1) 4).1 ∧
      (gen_range_fp f t (n + 1) 4).1 ≤ (gen_range_fp f t n 4).2 + 1 := by
  intro f t n h1 h2 h3 h4 h5
  rw [gen_range_fp_eq4_of_le f t 0 h1 h2 h3 (by omega) (by omega),
    gen_range_fp_eq4_of_le f t 3 h1 h2 h3 (by omega) (by omega),
    gen_range_fp_eq4_of_le f t n h1 h2 h3 (by omega) (by omega),
    gen_range_fp_eq4_of_le f t (n + 1) h1 h2 h3 (by omega) (by omega)]
  exact ⟨gen_range_first f t 4, gen_range_last4 f t,
    gen_range_adj_le f t n 4, gen_range_adj_ge f t n 4⟩

/-- C4 (witness): the amended statement at the reference range `(0, 128)`,
adjacent branches 1 and 2. -/
theorem c4_witness :
    (gen_range_fp 0 128 0 4).1 = 0 ∧
    (gen_range_fp 0 128 3 4).2 = 128 ∧
    (gen_range_fp 0 128 1 4).2 ≤ (gen_range_fp 0 128 (1 + 1) 4).1 ∧
    (gen_range_fp 0 128 (1 + 1) 4).1 ≤ (gen_range_fp 0 128 1 4).2 + 1 :=
  c4_partition_tiling 0 128 1 (by norm_num) (by norm_num) (by norm_num)
    (by norm_num) (by norm_num)

/-- C5 (counterexample): `select_range` performs no branch-index validation:
called with the out-of-range index `-1` from the reference initial state it
is not rejected — it succeeds and silently replaces the current interval
with `(-32, 0)` (even escaping the configured range).  The float-computed
partition agrees, this instance being exact. -/
theorem c5_counterexample :
    gen_range_fp 0 128 (-1) 4 = (-32, 0) ∧
    select_range (CharacterInput.init (0, 128)) (-1) =
      Except.ok ⟨(0, 128), [(0, 128), (-32, 0)], -32, 0, []⟩ := by
  have hg : gen_range 0 128 (-1) 4 = (-32, 0) := by
    have h := gen_range_0_128 (-1)
    norm_num at h
    exact h
  constructor
  · rw [gen_range_fp_eq_gen_range 0 128 (-1) (by norm_num) (by norm_num)
      (by norm_num) (by norm_num) (by norm_num) (by norm_num) (by norm_num)
      (by norm_num)]
    exact hg
  · rw [select_range_push (CharacterInput.init (0, 128)) (-1) (-32) 0 hg (by norm_num)]
    rfl

/-- C5 (amended): `select_range` never rejects an out-of-range branch index:
for every integer `n` outside `[0, 4)` with `|n| ≤ 2^40` (the float-exact
regime for the reference range, as witnessed by the `gen_range_fp`
conjunct), the call from the reference initial state succeeds normally,
silently setting the current interval to `(32n, 32n + 32)` and pushing it.
No branch-index precondition check exists anywhere in the method: the only
faults it can raise are the internal ones on the collapse/invalid-interval
paths, never a rejection of the index itself. -/
theorem c5_no_branch_validation :
    ∀ n : ℤ, n < 0 ∨ 4 ≤ n → -(2 ^ 40) ≤ n → n ≤ 2 ^ 40 →
      gen_range_fp 0 128 n 4 = (32 * n, 32 * n + 32) ∧
      select_range (CharacterInput.init (0, 128)) n =
        Except.ok ⟨(0, 128), [(0, 128), (32 * n, 32 * n + 32)],
          32 * n, 32 * n + 32, []⟩ := by
  intro n _ hlo hhi
  constructor
  · rw [gen_range_fp_eq_gen_range 0 128 n (by norm_num) (by norm_num)
      (abs_lt.mpr ⟨by omega, by omega⟩) (abs_lt.mpr ⟨by omega, by omega⟩)
      (abs_lt.mpr ⟨by omega, by omega⟩) (abs_lt.mpr ⟨by omega, by omega⟩)
      (abs_lt.mpr ⟨by omega, by omega⟩) (abs_lt.mpr ⟨by omega, by omega⟩)]
    exact gen_range_0_128 n
  · rw [select_range_push (CharacterInput.init (0, 128)) n (32 * n) (32 * n + 32)
      (gen_range_0_128 n) (by omega)]
    rfl

/-- C5 (witness): the amended statement at the concrete out-of-range index 7. -/
theorem c5_witness :
    gen_range_fp 0 128 7 4 = (32 * 7, 32 * 7 + 32) ∧
    select_range (CharacterInput.init (0, 128)) 7 =
      Except.ok ⟨(0, 128), [(0, 128), (32 * 7, 32 * 7 + 32)],
        32 * 7, 32 * 7 + 32, []⟩ :=
  c5_no_branch_validation 7 (Or.inr (by norm_num)) (by norm_num) (by norm_num)

/-- C6 (counterexample): the program's float-evaluated partitioner violates
the claimed real-valued formula at an in-scope input (`from ≤ to`,
`m = 49 ≥ 1`, `n = 48 ∈ [0, m)`): CPython computes
`fl(1/49) = 5882252574524729/2^58`, whose product with 49 rounds to
`0.9999999999999999 = (2^53 - 1)/2^53`, so `gen_range(0, 1, 48, 49)`
returns `(1, 0)`, whereas the formula with exact `chunk = 1/49` gives
`(1, 1)` (and the program's result is not even a well-ordered interval). -/
theorem c6_counterexample :
    gen_range_fp 0 1 48 49 = (1, 0) ∧ gen_range 0 1 48 49 = (1, 1) ∧
    gen_range_fp 0 1 48 49 ≠ gen_range 0 1 48 49 := by
  have h1 : gen_range_fp 0 1 48 49 = (1, 0) := by
    simp only [gen_range_fp]
    norm_num
    rw [fl_1_49, fl_zero, fl_48, fl_49, fl_mul48, fl_mul49]
    simp only [zero_add]
    rw [fl_idem_a, fl_idem_b, ceil_as_floor]
    norm_num
  have h2 : gen_range 0 1 48 49 = (1, 1) := by
    simp only [gen_range, ceil_as_floor]
    norm_num
  refine ⟨h1, h2, ?_⟩
  rw [h1, h2]
  decide

/-- C6 (amended): the partition formula holds of the program exactly where
the float arithmetic is exact.  For the program's branch count 4
(`NUM_RANGES`), branch indices `n ∈ [0, 4)` and ordinals bounded by `2^40`,
`gen_range` as computed in floats returns exactly
`(ceil(f + chunk*n), floor(f + chunk*(n+1)))` with `chunk = (t - f) / 4`
evaluated exactly, and for a one-element interval (`f = t`) every such
branch yields `(f, f)`.  For general branch counts the claimed identity is
false of the program (see the counterexample at `m = 49`). -/
theorem c6_partition_formula :
    ∀ f t n : ℤ, -(2 ^ 40) ≤ f → f ≤ t → t ≤ 2 ^ 40 → 0 ≤ n → n < 4 →
      gen_range_fp f t n 4 =
        (⌈(f : ℚ) + ((t : ℚ) - (f : ℚ)) / 4 * (n : ℚ)⌉,
         ⌊(f : ℚ) + ((t : ℚ) - (f : ℚ)) / 4 * ((n : ℚ) + 1)⌋) ∧
      (f = t → gen_range_fp f t n 4 = (f, f)) := by
  intro f t n h1 h2 h3 h4 h5
  have hb : gen_range_fp f t n 4 = gen_range f t n 4 :=
    gen_range_fp_eq4_of_le f t n h1 h2 h3 h4 (by omega)
  constructor
  · rw [hb]
    simp only [gen_range]
    norm_num
  · intro hft
    subst hft
    rw [hb]
    simp [gen_range]

/-- C6 (witness): the amended statement at the one-element interval `(5, 5)`,
branch 0. -/
theorem c6_witness :
    gen_range_fp 5 5 0 4 =
      (⌈((5 : ℤ) : ℚ) + (((5 : ℤ) : ℚ) - ((5 : ℤ) : ℚ)) / 4 * ((0 : ℤ) : ℚ)⌉,
       ⌊((5 : ℤ) : ℚ) + (((5 : ℤ) : ℚ) - ((5 : ℤ) : ℚ)) / 4 * (((0 : ℤ) : ℚ) + 1)⌋) ∧
    ((5 : ℤ) = 5 → gen_range_fp 5 5 0 4 = (5, 5)) :=
  c6_partition_formula 5 5 0 (by norm_num) (le_refl 5) (by norm_num) (le_refl 0)
    (by norm_num)

/-- C7 (confirmed): from the reference initial state `(0, 128)` with branch
count 4, `select_range 2` succeeds and changes both `start` and `end` from
their initial values (to `(64, 96)`), and a subsequent `maybe_back` restores
the state — in particular the current `(start, end)` — to exactly the
pre-select state. -/
theorem c7_select_back_roundtrip :
    select_range (CharacterInput.init (0, 128)) 2 =
      Except.ok ⟨(0, 128), [(0, 128), (64, 96)], 64, 96, []⟩ ∧
    (⟨(0, 128), [(0, 128), (64, 96)], 64, 96, []⟩ : CharacterInput).start ≠
      (CharacterInput.init (0, 128)).start ∧
    (⟨(0, 128), [(0, 128), (64, 96)], 64, 96, []⟩ : CharacterInput).end_ ≠
      (CharacterInput.init (0, 128)).end_ ∧
    maybe_back ⟨(0, 128), [(0, 128), (64, 96)], 64, 96, []⟩ =
      CharacterInput.init (0, 128) := by
  refine ⟨?_, by decide, by decide, ?_⟩
  · have hg : gen_range (CharacterInput.init (0, 128)).start
        (CharacterInput.init (0, 128)).end_ 2 NUM_RANGES = (64, 96) := by
      have h := gen_range_0_128 2
      norm_num at h
      exact h
    rw [select_range_push (CharacterInput.init (0, 128)) 2 64 96 hg (by norm_num)]
    rfl
  · rw [maybe_back_pop ⟨(0, 128), [(0, 128), (64, 96)], 64, 96, []⟩
      ((0 : ℤ), (128 : ℤ)) (by norm_num) rfl]
    rfl

/-- C8 (confirmed): at stack depth 1 `maybe_back` is a total no-op: iterated
any number of times it returns the state unchanged (and, being a total
function of the model, raises nothing). -/
theorem c8_root_backtrack_noop :
    ∀ s : CharacterInput, s.stack.length = 1 → ∀ k : ℕ, maybe_back^[k] s = s := by
  intro s h k
  exact Function.iterate_fixed (maybe_back_root s (by omega)) k

/-- C8 (witness): five root backtracks from the reference initial state
leave it unchanged. -/
theorem c8_witness :
    maybe_back^[5] (CharacterInput.init (0, 128)) = CharacterInput.init (0, 128) :=
  c8_root_backtrack_noop (CharacterInput.init (0, 128)) rfl 5

/-- C9 (confirmed): `reset` sets the current `(start, end)` to the
construction-time full range and changes nothing else — the stack, the
emission log (the callback interaction record) and the stored range are
untouched; and `ascii_range` always equals the construction argument in
every reachable state, so the restored range is indeed the
construction-time one. -/
theorem c9_reset_frame :
    (∀ s : CharacterInput,
      (reset s).start = s.ascii_range.1 ∧ (reset s).end_ = s.ascii_range.2 ∧
      (reset s).stack = s.stack ∧ (reset s).emitted = s.emitted ∧
      (reset s).ascii_range = s.ascii_range) ∧
    (∀ (r : ℤ × ℤ) (ops : List Op), (run (CharacterInput.init r) ops).ascii_range = r) := by
  constructor
  · intro s
    exact ⟨rfl, rfl, rfl, rfl, rfl⟩
  · intro r ops
    rw [run_ascii ops (CharacterInput.init r)]
    rfl

/-- C10 (confirmed): whenever `select_range` raises the `start > end`
`RuntimeError`, the stack is exactly as before the call and no character was
emitted, but the object's `start`/`end` fields are left holding the invalid
partition result with `end < start`: atomic on the stack, not on the
current-interval fields. -/
theorem c10_fault_atomicity :
    ∀ (s : CharacterInput) (n : ℤ) (t : CharacterInput),
      select_range s n = Except.error (Err.startGtEnd, t) →
      t.stack = s.stack ∧ t.end_ < t.start ∧
      (t.start, t.end_) = gen_range s.start s.end_ n NUM_RANGES ∧
      t.emitted = s.emitted := by
  intro s n t h
  rcases select_range_cases s n with ⟨a, b, hgen, hba, he⟩ | ⟨x, q, hgen, hg, he⟩ |
    ⟨x, hgen, hg, he⟩ | ⟨a, b, hgen, hab, he⟩ <;> rw [he] at h
  · injection h with h
    have ht : t = { s with start := a, end_ := b } := (congrArg Prod.snd h).symm
    subst ht
    exact ⟨rfl, hba, by rw [hgen], rfl⟩
  · exact Except.noConfusion h
  · injection h with h
    exact absurd (congrArg Prod.fst h) (by simp)
  · exact Except.noConfusion h

/-- C10 (witness): the statement at the concrete state with current interval
`(67, 68)`, whose branch 1 partitions to the invalid `(68, 67)`. -/
theorem c10_witness :
    select_range ⟨(0, 128), [(0, 128), (67, 68)], 67, 68, []⟩ 1 =
      Except.error (Err.startGtEnd, ⟨(0, 128), [(0, 128), (67, 68)], 68, 67, []⟩) ∧
    ((⟨(0, 128), [(0, 128), (67, 68)], 68, 67, []⟩ : CharacterInput).stack =
        (⟨(0, 128), [(0, 128), (67, 68)], 67, 68, []⟩ : CharacterInput).stack ∧
      (⟨(0, 128), [(0, 128), (67, 68)], 68, 67, []⟩ : CharacterInput).end_ <
        (⟨(0, 128), [(0, 128), (67, 68)], 68, 67, []⟩ : CharacterInput).start ∧
      ((⟨(0, 128), [(0, 128), (67, 68)], 68, 67, []⟩ : CharacterInput).start,
          (⟨(0, 128), [(0, 128), (67, 68)], 68, 67, []⟩ : CharacterInput).end_) =
        gen_range (⟨(0, 128), [(0, 128), (67, 68)], 67, 68, []⟩ : CharacterInput).start
          (⟨(0, 128), [(0, 128), (67, 68)], 67, 68, []⟩ : CharacterInput).end_ 1 NUM_RANGES ∧
      (⟨(0, 128), [(0, 128), (67, 68)], 68, 67, []⟩ : CharacterInput).emitted =
        (⟨(0, 128), [(0, 128), (67, 68)], 67, 68, []⟩ : CharacterInput).emitted) := by
  have herr : select_range ⟨(0, 128), [(0, 128), (67, 68)], 67, 68, []⟩ 1 =
      Except.error (Err.startGtEnd, ⟨(0, 128), [(0, 128), (67, 68)], 68, 67, []⟩) := by
    rw [select_range_fault ⟨(0, 128), [(0, 128), (67, 68)], 67, 68, []⟩ 1 68 67
      gen_range_67_68_1 (by norm_num)]
  exact ⟨herr, c10_fault_atomicity ⟨(0, 128), [(0, 128), (67, 68)], 67, 68, []⟩ 1
    ⟨(0, 128), [(0, 128), (67, 68)], 68, 67, []⟩ herr⟩
